import Mathlib

/-
Shallow embedding of the free-tuber real-time lip-sync pipeline.

The embedded code:
  * lipsync.js (source embedded in src/README.md lines 381-657):
    PHONEME_MAP, SMOOTHING_FACTOR, getPhonemeCategory, resetPhonemeHistory.
  * src/audio.js: the scriptProcessor.onaudioprocess frame-buffer push
    (bounded drop-oldest FIFO) and stopMicrophone.
  * src/animation.js: animationState, updateMouthSprite, updateEyeSprite,
    setEyeState, triggerBlink.
  * unnamed/part_001 (the main.js variant with the throttled audio
    processor, lines 109-176): createAudioProcessor's processAudio closure,
    split at its single await point into a start and a finish phase, plus
    the onMicToggle(false) stop path (lines 264-269).

Conventions: JS numbers are rationals, Date.now() timestamps are integers,
Math.random() draws are rational inputs (hypotheses 0 <= r < 1 where the
value range matters), JS string falsiness is the empty string, and the
mutable module globals become explicit state records.
-/

namespace FreeTuber

/-- A phoneme event as produced by `processAudioBuffer` / `MockRhubarb`:
`{ phoneme, start, duration }`. -/
structure PhonemeEvent where
  phoneme : String
  start : ℚ
  duration : ℚ
  deriving DecidableEq, Repr

/-- lipsync.js `PHONEME_MAP`: the fixed phoneme-label to mouth-category
object, embedded as an association list (JS object property lookup
becomes `List.lookup`). -/
def PHONEME_MAP : List (String × String) :=
  [("A", "a"), ("E", "e"), ("I", "a"), ("O", "o"), ("U", "u"),
   ("M", "m"), ("B", "m"), ("P", "m"), ("N", "m"),
   ("F", "f"), ("V", "f"), ("T", "f"), ("D", "f"),
   ("L", "a"), ("K", "closed"), ("G", "closed"), ("S", "f"), ("Z", "f")]

/-- lipsync.js `SMOOTHING_FACTOR = 0.7`.  `getPhonemeCategory` below is
parametrised over this value so that the spec's extremes (strength 0 and 1)
can be stated; the source always calls it with `SMOOTHING_FACTOR`. -/
def SMOOTHING_FACTOR : ℚ := 7 / 10

/-- `phoneme.phoneme || 'rest'`: the label of an event, with the JS-falsy
empty string replaced by `"rest"`. -/
def phonemeChar (ev : PhonemeEvent) : String :=
  if ev.phoneme = "" then "rest" else ev.phoneme

/-- The pre-hysteresis mapping step of `getPhonemeCategory`:
`let category = PHONEME_MAP[phonemeChar] || 'closed'` followed by
`if (phonemeChar === 'rest' || phonemeChar === 'silent') category = 'idle'`. -/
def candidateCategory (c : String) : String :=
  let category := (PHONEME_MAP.lookup c).getD "closed"
  if c = "rest" ∨ c = "silent" then "idle" else category

/-- The value held by the `category` variable of `getPhonemeCategory`
after the smoothing block: `previousCategory` is the last history entry
(JS-falsy when the history is empty), and on a differing candidate the
switch happens only when `shouldSwitch = Math.random() > (1 -
SMOOTHING_FACTOR)` is true. -/
def emittedCategory (s r : ℚ) (hist : List String) (ev : PhonemeEvent) : String :=
  let category := candidateCategory (phonemeChar ev)
  match hist.getLast? with
  | some prev =>
      if prev ≠ "" ∧ prev ≠ category then
        if ¬ (r > 1 - s) then prev else category
      else category
  | none => category

/-- lipsync.js `getPhonemeCategory(phoneme)`, made pure: takes the
smoothing strength `s` (the source fixes `s = SMOOTHING_FACTOR`), this
call's `Math.random()` draw `r`, the current `phonemeHistory`, and the
(possibly null) event; returns the emitted category and the new history.
A null event returns `'idle'` at once, before the history push. -/
def getPhonemeCategory (s r : ℚ) (hist : List String) (ev : Option PhonemeEvent) :
    String × List String :=
  match ev with
  | none => ("idle", hist)
  | some ev =>
    let category := emittedCategory s r hist ev
    let hist := hist ++ [category]
    (category, if hist.length > 10 then hist.tail else hist)

/-- A sequence of `getPhonemeCategory` calls starting from the module's
initial `phonemeHistory = []`; each call supplies its random draw and its
(possibly null) event.  Returns the final history and all emitted
categories in order. -/
def runSmoother (s : ℚ) (calls : List (ℚ × Option PhonemeEvent)) :
    List String × List String :=
  calls.foldl
    (fun acc call =>
      let out := getPhonemeCategory s call.1 acc.1 call.2
      (out.2, acc.2 ++ [out.1]))
    ([], [])

/-- The fixed viseme category set: the eight mouth types of animation.js
(`mouthTypes`) are exactly the categories lipsync.js can emit. -/
def visemeSet : List String := ["a", "e", "o", "u", "m", "f", "idle", "closed"]

/-- An audio frame as pushed by audio.js `scriptProcessor.onaudioprocess`:
`{ data, timestamp, sampleRate }`. -/
structure AudioFrame where
  data : List ℚ
  timestamp : ℤ
  sampleRate : ℕ
  deriving DecidableEq, Repr

/-- The body of `scriptProcessor.onaudioprocess` acting on `audioBuffers`:
`audioBuffers.push(frame); if (audioBuffers.length > 15) audioBuffers.shift()`. -/
def pushFrame (buf : List AudioFrame) (f : AudioFrame) : List AudioFrame :=
  let buf := buf ++ [f]
  if buf.length > 15 then buf.tail else buf

/-- A sequence of capture-callback pushes. -/
def pushAll (buf : List AudioFrame) (fs : List AudioFrame) : List AudioFrame :=
  fs.foldl pushFrame buf

/-- animation.js `mouthTypes` as created by `initAnimation`. -/
def mouthTypes : List String := ["idle", "a", "e", "o", "u", "closed", "m", "f"]

/-- animation.js `animationState`, restricted to the fields the embedded
operations read or write.  `mouthVisible` is the `mouthSprites` map, each
entry carrying its sprite's `visible` flag; `eyeOpenVisible` and
`eyeClosedVisible` are the two eye sprites' `visible` flags (both eye map
entries always exist, so the source's `if (openEye && closedEye)` guard is
always taken). -/
structure AnimationState where
  mouthVisible : List (String × Bool)
  eyeOpenVisible : Bool
  eyeClosedVisible : Bool
  currentMouthType : String
  currentEyeState : String
  blinkTimer : ℚ
  blinkDuration : ℚ
  isBlinking : Bool
  nextBlinkTime : ℚ
  timeSinceLastBlink : ℚ
  deriving DecidableEq, Repr

attribute [ext] AnimationState

/-- The animation state as `initAnimation` leaves it: the module-level
initialiser (`currentMouthType = 'idle'`, `currentEyeState = 'open'`,
`blinkTimer = 0`, `blinkDuration = 0.15`, `isBlinking = false`,
`nextBlinkTime = Math.random() * 3 + 2` with draw `r0`,
`timeSinceLastBlink = 0`) plus the sprites `initAnimation` creates: one
mouth entry per `mouthTypes` element (placeholder containers are visible
by default), the open eye shown and the closed eye hidden. -/
def initialAnimationState (r0 : ℚ) : AnimationState :=
  { mouthVisible := mouthTypes.map (fun t => (t, true)),
    eyeOpenVisible := true, eyeClosedVisible := false,
    currentMouthType := "idle", currentEyeState := "open",
    blinkTimer := 0, blinkDuration := 15 / 100, isBlinking := false,
    nextBlinkTime := r0 * 3 + 2, timeSinceLastBlink := 0 }

/-- animation.js `updateMouthSprite(mouthLayer, phonemeCategory)`:
early return on a falsy or unchanged category; early return (after a
console warning) on a category absent from the `mouthSprites` map;
otherwise show exactly the requested mouth sprite and record it as
`currentMouthType`. -/
def updateMouthSprite (st : AnimationState) (phonemeCategory : String) : AnimationState :=
  if phonemeCategory = "" ∨ st.currentMouthType = phonemeCategory then st
  else if (st.mouthVisible.lookup phonemeCategory).isNone then st
  else
    { st with
      mouthVisible := st.mouthVisible.map (fun p => (p.1, p.1 == phonemeCategory)),
      currentMouthType := phonemeCategory }

/-- animation.js `updateEyeSprite(eyeLayer)` for one 1/60 s tick; `r` is
the `Math.random()` draw used if this tick completes a blink. -/
def updateEyeSprite (r : ℚ) (st : AnimationState) : AnimationState :=
  let st := { st with timeSinceLastBlink := st.timeSinceLastBlink + 1 / 60 }
  if st.isBlinking then
    let st := { st with blinkTimer := st.blinkTimer + 1 / 60 }
    if st.blinkTimer > st.blinkDuration then
      { st with
        isBlinking := false, blinkTimer := 0,
        nextBlinkTime := r * 3 + 2, timeSinceLastBlink := 0,
        eyeOpenVisible := true, eyeClosedVisible := false }
    else
      { st with eyeOpenVisible := false, eyeClosedVisible := true }
  else if st.timeSinceLastBlink ≥ st.nextBlinkTime then
    { st with isBlinking := true, blinkTimer := 0 }
  else st

/-- animation.js `setEyeState(eyeLayer, state)`: unknown states are
rejected with a warning; otherwise blinking is cancelled and the requested
eye sprite shown.  Note it does not touch `timeSinceLastBlink` or
`nextBlinkTime`. -/
def setEyeState (st : AnimationState) (state : String) : AnimationState :=
  if state ≠ "open" ∧ state ≠ "closed" then st
  else
    { st with
      isBlinking := false, blinkTimer := 0, currentEyeState := state,
      eyeOpenVisible := state == "open", eyeClosedVisible := state == "closed" }

/-- animation.js `triggerBlink(eyeLayer)`. -/
def triggerBlink (st : AnimationState) : AnimationState :=
  { st with isBlinking := true, blinkTimer := 0, timeSinceLastBlink := 0 }

/-- `n` consecutive `updateEyeSprite` ticks; `rs i` is the random draw
available to the `(i+1)`-th tick. -/
def runTicks (rs : ℕ → ℚ) : ℕ → AnimationState → AnimationState
  | 0, st => st
  | n + 1, st => runTicks (fun i => rs (i + 1)) n (updateEyeSprite (rs 0) st)

/-- The closure state of `createAudioProcessor` (unnamed/part_001 lines
109-176): `lastProcessTime` and the `isProcessing` re-entrancy flag. -/
structure ProcessorState where
  lastProcessTime : ℤ
  isProcessing : Bool
  deriving DecidableEq, Repr

/-- `PROCESS_INTERVAL = 50` ms. -/
def PROCESS_INTERVAL : ℤ := 50

/-- The synchronous prefix of part_001's `processAudio`, up to its single
`await processAudioBuffer(...)`: throttle check, re-entrancy check,
empty-queue check, then (when a cycle starts) set `isProcessing`, record
`lastProcessTime = now` and shift one frame off `window.audioBufferQueue`.
Result: new closure state, new queue, and the dequeued frame (`none` when
no cycle starts). -/
def processAudioStart (st : ProcessorState) (queue : List AudioFrame) (now : ℤ) :
    ProcessorState × List AudioFrame × Option AudioFrame :=
  if now - st.lastProcessTime < PROCESS_INTERVAL then (st, queue, none)
  else if st.isProcessing then (st, queue, none)
  else if queue.isEmpty then (st, queue, none)
  else
    ({ lastProcessTime := now, isProcessing := true }, queue.tail, queue.head?)

/-- The continuation of part_001's `processAudio` after the await: the
classified `phonemes` come back, `phonemes[0]` (if any) is mapped through
`getPhonemeCategory` updating `appState.phonemeCategory`, and the
`finally` block clears `isProcessing`.  `r` is the `Math.random()` draw
consumed by the smoother. -/
def processAudioFinish (st : ProcessorState) (phonemes : List PhonemeEvent)
    (r : ℚ) (hist : List String) (appCategory : String) :
    ProcessorState × List String × String :=
  match phonemes.head? with
  | none => ({ st with isProcessing := false }, hist, appCategory)
  | some p =>
      let out := getPhonemeCategory SMOOTHING_FACTOR r hist (some p)
      ({ st with isProcessing := false }, out.2, out.1)

/-- The cross-module state touched by the microphone stop path: audio.js
module globals, the shared `window.audioBufferQueue`, lipsync.js
`phonemeHistory`, `appState` flags and the animation state. -/
structure PipelineState where
  micActive : Bool
  isAudioRunning : Bool
  audioBufferQueue : List AudioFrame
  phonemeHistory : List String
  isMicEnabled : Bool
  phonemeCategory : String
  anim : AnimationState
  deriving DecidableEq, Repr

/-- audio.js `stopMicrophone()`: stops the media stream tracks and
disconnects the script processor (no further `onaudioprocess` pushes),
clears `isAudioRunning`, and replaces `window.audioBufferQueue` with a
fresh empty array.  It does not touch lipsync.js `phonemeHistory`. -/
def stopMicrophone (p : PipelineState) : PipelineState :=
  { p with micActive := false, isAudioRunning := false, audioBufferQueue := [] }

/-- The `onMicToggle(false)` branch of part_001 (lines 264-269):
`await stopMicrophone(); appState.isMicEnabled = false`. -/
def onMicToggleOff (p : PipelineState) : PipelineState :=
  { stopMicrophone p with isMicEnabled := false }

/-- lipsync.js `resetPhonemeHistory()` (exported but never called from the
microphone stop path). -/
def resetPhonemeHistory (p : PipelineState) : PipelineState :=
  { p with phonemeHistory := [] }

/-- One iteration of part_001's `animate()` render loop when the
microphone is disabled: `appState.isMicEnabled` is false so the audio
processor is skipped, then `updateMouthSprite(layers.mouth,
appState.phonemeCategory)` and `updateEyeSprite(layers.eyes)` run
unconditionally. -/
def animateTickMicOff (r : ℚ) (p : PipelineState) : PipelineState :=
  { p with anim := updateEyeSprite r (updateMouthSprite p.anim p.phonemeCategory) }

/-! Helper lemmas about association-list lookup and the smoother. -/

lemma lookup_eq_none_of_not_mem_keys {β : Type} (l : List (String × β)) (c : String)
    (h : c ∉ l.map Prod.fst) : l.lookup c = none := by
  induction l with
  | nil => rfl
  | cons p tl ih =>
      simp only [List.map_cons, List.mem_cons, not_or] at h
      obtain ⟨h1, h2⟩ := h
      obtain ⟨k, v⟩ := p
      have hk : (c == k) = false := beq_eq_false_iff_ne.mpr h1
      simp only [List.lookup, hk]
      exact ih h2

lemma mem_values_of_lookup {β : Type} (l : List (String × β)) (c : String) (v : β)
    (h : l.lookup c = some v) : v ∈ l.map Prod.snd := by
  induction l with
  | nil => simp [List.lookup] at h
  | cons p tl ih =>
      obtain ⟨k, w⟩ := p
      cases hkc : (c == k) with
      | true =>
          simp only [List.lookup, hkc] at h
          injection h with h
          subst h
          simp
      | false =>
          simp only [List.lookup, hkc] at h
          simp only [List.map_cons, List.mem_cons]
          exact Or.inr (ih h)

lemma candidateCategory_mem (c : String) : candidateCategory c ∈ visemeSet := by
  by_cases h : c = "rest" ∨ c = "silent"
  · simp only [candidateCategory, if_pos h]
    decide
  · cases hl : PHONEME_MAP.lookup c with
    | none =>
        simp only [candidateCategory, hl, if_neg h, Option.getD_none]
        decide
    | some v =>
        have hv : v ∈ PHONEME_MAP.map Prod.snd := mem_values_of_lookup _ _ _ hl
        have hsub : ∀ x ∈ PHONEME_MAP.map Prod.snd, x ∈ visemeSet := by decide
        simp only [candidateCategory, hl, if_neg h, Option.getD_some]
        exact hsub v hv

lemma emittedCategory_mem (s r : ℚ) (hist : List String) (ev : PhonemeEvent)
    (hh : ∀ x ∈ hist, x ∈ visemeSet) : emittedCategory s r hist ev ∈ visemeSet := by
  unfold emittedCategory
  cases hl : hist.getLast? with
  | none => exact candidateCategory_mem _
  | some prev =>
      have hp : prev ∈ visemeSet := hh prev (List.mem_of_mem_getLast? hl)
      dsimp only
      split
      · split
        · exact hp
        · exact candidateCategory_mem _
      · exact candidateCategory_mem _

lemma getPhonemeCategory_some (s r : ℚ) (hist : List String) (ev : PhonemeEvent) :
    getPhonemeCategory s r hist (some ev) =
      (emittedCategory s r hist ev,
        if (hist ++ [emittedCategory s r hist ev]).length > 10
        then (hist ++ [emittedCategory s r hist ev]).tail
        else hist ++ [emittedCategory s r hist ev]) := rfl

lemma getPhonemeCategory_mem (s r : ℚ) (hist : List String) (ev : Option PhonemeEvent)
    (hh : ∀ x ∈ hist, x ∈ visemeSet) :
    (getPhonemeCategory s r hist ev).1 ∈ visemeSet ∧
      ∀ x ∈ (getPhonemeCategory s r hist ev).2, x ∈ visemeSet := by
  cases ev with
  | none =>
      refine ⟨?_, hh⟩
      show "idle" ∈ visemeSet
      decide
  | some ev =>
      rw [getPhonemeCategory_some]
      refine ⟨emittedCategory_mem s r hist ev hh, ?_⟩
      intro x hx
      have hx' : x ∈ hist ++ [emittedCategory s r hist ev] := by
        by_cases hlen : (hist ++ [emittedCategory s r hist ev]).length > 10
        · rw [if_pos hlen] at hx
          exact List.tail_subset _ hx
        · rwa [if_neg hlen] at hx
      rcases List.mem_append.mp hx' with h | h
      · exact hh x h
      · simp only [List.mem_singleton] at h
        subst h
        exact emittedCategory_mem s r hist ev hh

lemma runSmoother_go_mem (s : ℚ) (calls : List (ℚ × Option PhonemeEvent)) :
    ∀ (acc : List String × List String),
      (∀ x ∈ acc.1, x ∈ visemeSet) → (∀ x ∈ acc.2, x ∈ visemeSet) →
      ∀ c ∈ (calls.foldl
          (fun acc call =>
            let out := getPhonemeCategory s call.1 acc.1 call.2
            (out.2, acc.2 ++ [out.1])) acc).2,
        c ∈ visemeSet := by
  induction calls with
  | nil =>
      intro acc h1 h2 c hc
      simpa using h2 c hc
  | cons call tl ih =>
      intro acc h1 h2 c hc
      simp only [List.foldl_cons] at hc
      have hmem := getPhonemeCategory_mem s call.1 acc.1 call.2 h1
      refine ih _ hmem.2 ?_ c hc
      intro x hx
      rcases List.mem_append.mp hx with h | h
      · exact h2 x h
      · simp only [List.mem_singleton] at h
        subst h
        exact hmem.1

/-! Claim theorems. -/

/-- C8 (mapping totality): every category emitted over any call sequence
of the resolver lies in the fixed viseme set (the resolver is a total
function, so it always terminates and never throws); a null event resolves
to `'idle'`; the `'rest'` and `'silent'` labels map to `'idle'`; and any
label outside the `PHONEME_MAP` alphabet (other than rest/silent) maps to
the `'closed'` default. -/
theorem mapping_totality :
    (∀ (s : ℚ) (calls : List (ℚ × Option PhonemeEvent)),
      ∀ c ∈ (runSmoother s calls).2, c ∈ visemeSet) ∧
    (∀ (s r : ℚ) (hist : List String), (getPhonemeCategory s r hist none).1 = "idle") ∧
    candidateCategory "rest" = "idle" ∧
    candidateCategory "silent" = "idle" ∧
    (∀ l : String, PHONEME_MAP.lookup l = none → ¬(l = "rest" ∨ l = "silent") →
      candidateCategory l = "closed") := by
  refine ⟨?_, ?_, by decide, by decide, ?_⟩
  · intro s calls c hc
    unfold runSmoother at hc
    exact runSmoother_go_mem s calls ([], []) (by simp) (by simp) c hc
  · intro s r hist
    rfl
  · intro l hl hns
    simp only [candidateCategory, hl, if_neg hns, Option.getD_none]

/-- C8 witness: a concrete one-call run through the resolver emits `"a"`,
which the theorem places in the viseme set. -/
theorem mapping_totality_witness :
    "a" ∈ (runSmoother SMOOTHING_FACTOR [((0 : ℚ), some ⟨"A", 0, 0⟩)]).2 ∧
      "a" ∈ visemeSet :=
  ⟨by decide,
   mapping_totality.1 SMOOTHING_FACTOR [((0 : ℚ), some ⟨"A", 0, 0⟩)] "a" (by decide)⟩

/-- C1 counterexample: with smoothing strength 0 the resolver does NOT
accept a differing candidate: previous emission `"a"`, candidate `"e"`
(event label `"E"`), draw 1/2 — the emitted category stays `"a"`.  The
claim says strength 0 accepts every distinct candidate immediately. -/
theorem hysteresis_extremes_cex :
    candidateCategory (phonemeChar ⟨"E", 0, 0⟩) = "e" ∧
    (getPhonemeCategory 0 (1 / 2) ["a"] (some ⟨"E", 0, 0⟩)).1 = "a" := by
  refine ⟨by decide, ?_⟩
  rw [getPhonemeCategory_some]
  show emittedCategory 0 (1 / 2) ["a"] ⟨"E", 0, 0⟩ = "a"
  have hc : candidateCategory (phonemeChar ⟨"E", 0, 0⟩) = "e" := by decide
  have hlast : (["a"] : List String).getLast? = some "a" := rfl
  simp only [emittedCategory, hlast, hc]
  rw [if_pos ⟨by decide, by decide⟩, if_pos (by norm_num)]

/-- C1 amended: the extremes are the reverse of the claim.  With smoothing
strength 0 the emitted category never changes after the first emission
(every call re-emits the previous history entry, for any draw at most 1);
with smoothing strength 1 every candidate is accepted immediately whenever
the random draw is strictly positive. -/
theorem hysteresis_extremes :
    (∀ (r : ℚ) (hist : List String) (ev : PhonemeEvent) (prev : String),
      hist.getLast? = some prev → prev ≠ "" → r ≤ 1 →
      (getPhonemeCategory 0 r hist (some ev)).1 = prev) ∧
    (∀ (r : ℚ) (hist : List String) (ev : PhonemeEvent), 0 < r →
      (getPhonemeCategory 1 r hist (some ev)).1 = candidateCategory (phonemeChar ev)) := by
  constructor
  · intro r hist ev prev hl hne hr
    have h1 : ¬ (r > 1 - (0 : ℚ)) := by
      simp only [sub_zero]
      exact not_lt.mpr hr
    rw [getPhonemeCategory_some]
    show emittedCategory 0 r hist ev = prev
    simp only [emittedCategory, hl]
    by_cases hpc : prev = candidateCategory (phonemeChar ev)
    · rw [if_neg fun hand => hand.2 hpc]
      exact hpc.symm
    · rw [if_pos ⟨hne, hpc⟩, if_pos h1]
  · intro r hist ev hr
    rw [getPhonemeCategory_some]
    show emittedCategory 1 r hist ev = candidateCategory (phonemeChar ev)
    cases hl : hist.getLast? with
    | none => simp only [emittedCategory, hl]
    | some prev =>
        have h1 : ¬ ¬ (r > 1 - (1 : ℚ)) := by
          simp only [sub_self, not_not]
          exact hr
        simp only [emittedCategory, hl]
        by_cases hpc : prev ≠ "" ∧ prev ≠ candidateCategory (phonemeChar ev)
        · rw [if_pos hpc, if_neg h1]
        · rw [if_neg hpc]

/-- C1 witness: both amended extremes at concrete inputs: strength 0 keeps
`"a"` against candidate `"e"`; strength 1 accepts the candidate. -/
theorem hysteresis_extremes_witness :
    ((["a"] : List String).getLast? = some "a" ∧ "a" ≠ "" ∧ (1 / 2 : ℚ) ≤ 1 ∧
      (getPhonemeCategory 0 (1 / 2) ["a"] (some ⟨"E", 0, 0⟩)).1 = "a") ∧
    ((0 : ℚ) < 1 / 2 ∧
      (getPhonemeCategory 1 (1 / 2) ["a"] (some ⟨"E", 0, 0⟩)).1 =
        candidateCategory (phonemeChar ⟨"E", 0, 0⟩)) :=
  ⟨⟨rfl, by decide, by norm_num,
    hysteresis_extremes.1 (1 / 2) ["a"] ⟨"E", 0, 0⟩ "a" rfl (by decide) (by norm_num)⟩,
   ⟨by norm_num,
    hysteresis_extremes.2 (1 / 2) ["a"] ⟨"E", 0, 0⟩ (by norm_num)⟩⟩

/-- C4 counterexample: a null-event call does NOT append to the history:
with history `["a"]` the call emits `"idle"` but leaves the history at
`["a"]` (the claim says it becomes `["a", "idle"]`). -/
theorem history_maintenance_cex :
    getPhonemeCategory SMOOTHING_FACTOR 0 ["a"] none = ("idle", ["a"]) ∧
    (getPhonemeCategory SMOOTHING_FACTOR 0 ["a"] none).2 ≠ ["a", "idle"] := by
  exact ⟨rfl, by decide⟩

/-- C4 amended: a null-event call emits `'idle'` and leaves the history
unchanged; every call with a present event appends the emitted category at
the tail, and if the history length was at most 10 before the call it
stays at most 10 after, the oldest (front) entry being removed exactly
when the bound would be exceeded. -/
theorem history_maintenance :
    (∀ (s r : ℚ) (hist : List String),
      getPhonemeCategory s r hist none = ("idle", hist)) ∧
    (∀ (s r : ℚ) (hist : List String) (ev : PhonemeEvent), hist.length ≤ 10 →
      (getPhonemeCategory s r hist (some ev)).2.length ≤ 10 ∧
      (getPhonemeCategory s r hist (some ev)).2.getLast? =
        some (getPhonemeCategory s r hist (some ev)).1 ∧
      (hist.length < 10 →
        (getPhonemeCategory s r hist (some ev)).2 =
          hist ++ [(getPhonemeCategory s r hist (some ev)).1]) ∧
      (hist.length = 10 →
        (getPhonemeCategory s r hist (some ev)).2 =
          hist.tail ++ [(getPhonemeCategory s r hist (some ev)).1])) := by
  constructor
  · intro s r hist
    rfl
  · intro s r hist ev hlen
    rw [getPhonemeCategory_some]
    dsimp only
    by_cases hb : hist.length < 10
    · have hc : ¬ ((hist ++ [emittedCategory s r hist ev]).length > 10) := by
        simp only [List.length_append, List.length_singleton]
        omega
      rw [if_neg hc]
      refine ⟨?_, List.getLast?_concat _, fun _ => rfl, fun h => absurd h (by omega)⟩
      simp only [List.length_append, List.length_singleton]
      omega
    · have h10 : hist.length = 10 := by omega
      have hc : (hist ++ [emittedCategory s r hist ev]).length > 10 := by
        simp only [List.length_append, List.length_singleton]
        omega
      rw [if_pos hc]
      obtain ⟨h, t, rfl⟩ := List.exists_cons_of_ne_nil
        (show hist ≠ [] by intro hnil; rw [hnil] at h10; simp at h10)
      refine ⟨?_, ?_, fun hlt => absurd hlt (by omega), fun _ => by simp⟩
      · simp only [List.cons_append, List.tail_cons, List.length_append,
          List.length_singleton]
        simp only [List.length_cons] at h10
        omega
      · simp only [List.cons_append, List.tail_cons]
        exact List.getLast?_concat _

/-- C4 witness: the amended facts at the empty history with event `"A"`. -/
theorem history_maintenance_witness :
    ([] : List String).length ≤ 10 ∧
    ((getPhonemeCategory SMOOTHING_FACTOR 0 [] (some ⟨"A", 0, 0⟩)).2.length ≤ 10 ∧
      (getPhonemeCategory SMOOTHING_FACTOR 0 [] (some ⟨"A", 0, 0⟩)).2.getLast? =
        some (getPhonemeCategory SMOOTHING_FACTOR 0 [] (some ⟨"A", 0, 0⟩)).1 ∧
      (([] : List String).length < 10 →
        (getPhonemeCategory SMOOTHING_FACTOR 0 [] (some ⟨"A", 0, 0⟩)).2 =
          [] ++ [(getPhonemeCategory SMOOTHING_FACTOR 0 [] (some ⟨"A", 0, 0⟩)).1]) ∧
      (([] : List String).length = 10 →
        (getPhonemeCategory SMOOTHING_FACTOR 0 [] (some ⟨"A", 0, 0⟩)).2 =
          ([] : List String).tail ++
            [(getPhonemeCategory SMOOTHING_FACTOR 0 [] (some ⟨"A", 0, 0⟩)).1])) :=
  ⟨by decide, history_maintenance.2 SMOOTHING_FACTOR 0 [] ⟨"A", 0, 0⟩ (by decide)⟩

/-- C9 (viseme application idempotence): a repeated `updateMouthSprite`
call with the same category is a complete no-op (the second call returns
the state of the first unchanged, for every state and category); and when
a known category differs from the current one, the single call sets
`currentMouthType` to it and makes exactly the requested mouth sprite
visible (every sprite's visibility becomes the test `type == category`). -/
theorem applyViseme_idempotent :
    (∀ (st : AnimationState) (c : String),
      updateMouthSprite (updateMouthSprite st c) c = updateMouthSprite st c) ∧
    (∀ (st : AnimationState) (c : String), c ≠ "" → st.currentMouthType ≠ c →
      (st.mouthVisible.lookup c).isSome →
      (updateMouthSprite st c).currentMouthType = c ∧
      ∀ p ∈ (updateMouthSprite st c).mouthVisible, p.2 = (p.1 == c)) := by
  constructor
  · intro st c
    by_cases h1 : c = "" ∨ st.currentMouthType = c
    · simp only [updateMouthSprite]
      rw [if_pos h1, if_pos h1]
    · by_cases h2 : (st.mouthVisible.lookup c).isNone
      · simp only [updateMouthSprite]
        rw [if_neg h1, if_pos h2, if_neg h1, if_pos h2]
      · simp only [updateMouthSprite]
        rw [if_neg h1, if_neg h2, if_pos (Or.inr rfl)]
  · intro st c h1 h2 h3
    have hcond : ¬ (c = "" ∨ st.currentMouthType = c) := by
      rintro (h | h)
      · exact h1 h
      · exact h2 h
    have h2' : ¬ (st.mouthVisible.lookup c).isNone := by
      rw [Option.isNone_iff_eq_none]
      intro h
      rw [h] at h3
      simp at h3
    constructor
    · simp only [updateMouthSprite]
      rw [if_neg hcond, if_neg h2']
    · simp only [updateMouthSprite]
      rw [if_neg hcond, if_neg h2']
      intro p hp
      simp only [List.mem_map] at hp
      obtain ⟨q, _, rfl⟩ := hp
      rfl

/-- C9 witness: the change half at the initial animation state with
category `"a"`. -/
theorem applyViseme_idempotent_witness :
    ("a" ≠ "" ∧ (initialAnimationState 0).currentMouthType ≠ "a" ∧
      ((initialAnimationState 0).mouthVisible.lookup "a").isSome) ∧
    (updateMouthSprite (initialAnimationState 0) "a").currentMouthType = "a" ∧
    ∀ p ∈ (updateMouthSprite (initialAnimationState 0) "a").mouthVisible,
      p.2 = (p.1 == "a") :=
  ⟨⟨by decide, by decide, by decide⟩,
   applyViseme_idempotent.2 (initialAnimationState 0) "a"
     (by decide) (by decide) (by decide)⟩

/-- C10 (unknown mouth type is a pure no-op): calling `updateMouthSprite`
with a non-empty category that differs from the current one and is not one
of the eight known mouth types leaves the animation state entirely
unchanged (and in particular returns normally). -/
theorem unknown_mouthType_noop :
    ∀ (st : AnimationState) (c : String), c ≠ "" → c ≠ st.currentMouthType →
      st.mouthVisible.map Prod.fst = mouthTypes → c ∉ mouthTypes →
      updateMouthSprite st c = st := by
  intro st c h1 h2 hkeys hc
  have hlook : st.mouthVisible.lookup c = none := by
    apply lookup_eq_none_of_not_mem_keys
    rw [hkeys]
    exact hc
  have hcond : ¬ (c = "" ∨ st.currentMouthType = c) := by
    rintro (h | h)
    · exact h1 h
    · exact h2 h.symm
  simp only [updateMouthSprite]
  rw [if_neg hcond, if_pos (by simp [hlook])]

/-- C10 witness: the unknown category `"x"` at the initial animation
state. -/
theorem unknown_mouthType_noop_witness :
    ("x" ≠ "" ∧ "x" ≠ (initialAnimationState 0).currentMouthType ∧
      (initialAnimationState 0).mouthVisible.map Prod.fst = mouthTypes ∧
      "x" ∉ mouthTypes) ∧
    updateMouthSprite (initialAnimationState 0) "x" = initialAnimationState 0 :=
  ⟨⟨by decide, by decide, by decide, by decide⟩,
   unknown_mouthType_noop (initialAnimationState 0) "x"
     (by decide) (by decide) (by decide) (by decide)⟩

/-! Helper lemmas for the blink state machine. -/

lemma runTicks_succ (rs : ℕ → ℚ) (n : ℕ) (st : AnimationState) :
    runTicks rs (n + 1) st = runTicks (fun i => rs (i + 1)) n (updateEyeSprite (rs 0) st) :=
  rfl

lemma runTicks_add (a b : ℕ) (rs : ℕ → ℚ) (st : AnimationState) :
    runTicks rs (a + b) st = runTicks (fun i => rs (i + a)) b (runTicks rs a st) := by
  induction a generalizing rs st with
  | zero => simp [runTicks]
  | succ a ih =>
      have h1 : a + 1 + b = (a + b) + 1 := by omega
      rw [h1, runTicks_succ, ih]
      have hf : (fun i => (fun j => rs (j + 1)) (i + a)) = fun i => rs (i + (a + 1)) := by
        funext i
        rfl
      rw [hf]
      rfl

lemma updateEyeSprite_idle (r : ℚ) (w : AnimationState) (hb : w.isBlinking = false)
    (hlt : w.timeSinceLastBlink + 1 / 60 < w.nextBlinkTime) :
    updateEyeSprite r w =
      { w with timeSinceLastBlink := w.timeSinceLastBlink + 1 / 60 } := by
  unfold updateEyeSprite
  simp only [hb, Bool.false_eq_true, if_false]
  rw [if_neg (not_le.mpr hlt)]

lemma blinkTrigger_step (r : ℚ) (w : AnimationState) (hb : w.isBlinking = false)
    (hdue : w.timeSinceLastBlink + 1 / 60 ≥ w.nextBlinkTime) :
    updateEyeSprite r w =
      { w with timeSinceLastBlink := w.timeSinceLastBlink + 1 / 60,
               isBlinking := true, blinkTimer := 0 } := by
  unfold updateEyeSprite
  simp only [hb, Bool.false_eq_true, if_false]
  rw [if_pos hdue]

lemma blinkOngoing_step (r : ℚ) (w : AnimationState) (j : ℕ) (hb : w.isBlinking = true)
    (ht : w.blinkTimer = (j : ℚ) / 60) (hd : w.blinkDuration = 15 / 100) (hj : j + 1 ≤ 9) :
    updateEyeSprite r w =
      { w with timeSinceLastBlink := w.timeSinceLastBlink + 1 / 60,
               blinkTimer := ((j + 1 : ℕ) : ℚ) / 60,
               eyeOpenVisible := false, eyeClosedVisible := true } := by
  have hjq : ((j : ℚ) + 1) ≤ 9 := by exact_mod_cast hj
  have hle : ¬ ((j : ℚ) / 60 + 1 / 60 > 15 / 100) := by
    rw [not_lt]
    rw [div_add_div_same]
    rw [div_le_div_iff₀ (by norm_num) (by norm_num)]
    linarith
  unfold updateEyeSprite
  simp only [hb, if_true, ht, hd]
  rw [if_neg hle]
  congr 1
  push_cast
  ring

lemma blinkFinish_step (r : ℚ) (w : AnimationState) (hb : w.isBlinking = true)
    (ht : w.blinkTimer = (9 : ℚ) / 60) (hd : w.blinkDuration = 15 / 100) :
    updateEyeSprite r w =
      { w with isBlinking := false, blinkTimer := 0, nextBlinkTime := r * 3 + 2,
               timeSinceLastBlink := 0, eyeOpenVisible := true, eyeClosedVisible := false } := by
  have hgt : (9 : ℚ) / 60 + 1 / 60 > 15 / 100 := by norm_num
  unfold updateEyeSprite
  simp only [hb, if_true, ht, hd]
  rw [if_pos hgt]

lemma openPhase (k : ℕ) :
    ∀ (w : AnimationState) (rs : ℕ → ℚ), w.isBlinking = false →
      (∀ m : ℕ, 1 ≤ m → m ≤ k → w.timeSinceLastBlink + (m : ℚ) / 60 < w.nextBlinkTime) →
      runTicks rs k w = { w with timeSinceLastBlink := w.timeSinceLastBlink + (k : ℚ) / 60 } := by
  induction k with
  | zero =>
      intro w rs _ _
      show w = _
      apply AnimationState.ext <;> first | rfl | (push_cast; ring)
  | succ k ih =>
      intro w rs hb hbound
      have hlt : w.timeSinceLastBlink + 1 / 60 < w.nextBlinkTime := by
        have := hbound 1 le_rfl (by omega)
        push_cast at this
        linarith
      have hbound2 : ∀ m : ℕ, 1 ≤ m → m ≤ k →
          ({ w with timeSinceLastBlink := w.timeSinceLastBlink + 1 / 60 } :
            AnimationState).timeSinceLastBlink + (m : ℚ) / 60 <
            ({ w with timeSinceLastBlink := w.timeSinceLastBlink + 1 / 60 } :
              AnimationState).nextBlinkTime := by
        intro m h1 h2
        show w.timeSinceLastBlink + 1 / 60 + (m : ℚ) / 60 < w.nextBlinkTime
        have := hbound (m + 1) (by omega) (by omega)
        push_cast at this
        linarith
      have hrec := ih { w with timeSinceLastBlink := w.timeSinceLastBlink + 1 / 60 }
        (fun i => rs (i + 1))
        (show ({ w with timeSinceLastBlink := w.timeSinceLastBlink + 1 / 60 } :
          AnimationState).isBlinking = false from hb)
        hbound2
      rw [runTicks_succ, updateEyeSprite_idle (rs 0) w hb hlt, hrec]
      apply AnimationState.ext <;> first | rfl | (push_cast; ring)

lemma blinkPhase (k : ℕ) :
    ∀ (j : ℕ) (w : AnimationState) (rs : ℕ → ℚ), 1 ≤ k → j + k ≤ 9 →
      w.isBlinking = true → w.blinkTimer = (j : ℚ) / 60 → w.blinkDuration = 15 / 100 →
      runTicks rs k w =
        { w with timeSinceLastBlink := w.timeSinceLastBlink + (k : ℚ) / 60,
                 blinkTimer := ((j + k : ℕ) : ℚ) / 60,
                 eyeOpenVisible := false, eyeClosedVisible := true } := by
  induction k with
  | zero =>
      intro j w rs hk _ _ _ _
      exact absurd hk (by omega)
  | succ k ih =>
      intro j w rs _ hjk hb ht hd
      rw [runTicks_succ, blinkOngoing_step (rs 0) w j hb ht hd (by omega)]
      by_cases hk0 : k = 0
      · subst hk0
        show _ = _
        apply AnimationState.ext <;> first | rfl | (push_cast; ring)
      · rw [ih (j + 1) _ (fun i => rs (i + 1)) (by omega) (by omega) ?hb ?ht ?hd]
        case hb => exact hb
        case ht => rfl
        case hd => exact hd
        apply AnimationState.ext <;> first | rfl | (push_cast; ring)

lemma setEyeState_closed (st : AnimationState) :
    setEyeState st "closed" =
      { st with isBlinking := false, blinkTimer := 0, currentEyeState := "closed",
                eyeOpenVisible := false, eyeClosedVisible := true } := by
  unfold setEyeState
  rw [if_neg (by simp)]
  apply AnimationState.ext <;> first | rfl | decide

/-- The full trace after a manual `setEyeState('closed')` whose blink
deadline is (or immediately falls) due: the blink machine keeps running,
triggers on the first tick, and reopens the eye on the eleventh tick. -/
lemma override_closed_trace (st : AnimationState) (rs : ℕ → ℚ)
    (hd : st.blinkDuration = 15 / 100)
    (hdue : st.timeSinceLastBlink + 1 / 60 ≥ st.nextBlinkTime) :
    (∀ k : ℕ, k ≤ 10 →
      (runTicks rs k (setEyeState st "closed")).eyeClosedVisible = true ∧
      (runTicks rs k (setEyeState st "closed")).eyeOpenVisible = false) ∧
    (runTicks rs 11 (setEyeState st "closed")).eyeOpenVisible = true ∧
    (runTicks rs 11 (setEyeState st "closed")).eyeClosedVisible = false := by
  rw [setEyeState_closed st]
  set E : AnimationState :=
    { st with isBlinking := false, blinkTimer := 0, currentEyeState := "closed",
              eyeOpenVisible := false, eyeClosedVisible := true } with hE
  have hbE : E.isBlinking = false := rfl
  have hdueE : E.timeSinceLastBlink + 1 / 60 ≥ E.nextBlinkTime := hdue
  have htick : ∀ r : ℚ, updateEyeSprite r E =
      { E with timeSinceLastBlink := E.timeSinceLastBlink + 1 / 60,
               isBlinking := true, blinkTimer := 0 } :=
    fun r => blinkTrigger_step r E hbE hdueE
  constructor
  · intro k hk
    cases k with
    | zero => exact ⟨rfl, rfl⟩
    | succ j =>
        rw [runTicks_succ, htick (rs 0)]
        cases j with
        | zero => exact ⟨rfl, rfl⟩
        | succ i =>
            rw [blinkPhase (i + 1) 0 _ (fun i => rs (i + 1))
              (by omega) (by omega) ?hb1 ?ht1 ?hd1]
            case hb1 => rfl
            case ht1 => norm_num
            case hd1 => exact hd
            exact ⟨rfl, rfl⟩
  · rw [show (11 : ℕ) = 10 + 1 from rfl, runTicks_succ, htick (rs 0)]
    rw [show (10 : ℕ) = 9 + 1 from rfl, runTicks_add 9 1]
    rw [blinkPhase 9 0 _ (fun i => rs (i + 1)) (by omega) (by omega) ?hb2 ?ht2 ?hd2]
    case hb2 => rfl
    case ht2 => norm_num
    case hd2 => exact hd
    rw [show ∀ (g : ℕ → ℚ) (x : AnimationState),
      runTicks g 1 x = updateEyeSprite (g 0) x from fun g x => rfl]
    rw [blinkFinish_step _ _ ?hb3 ?ht3 ?hd3]
    case hb3 => rfl
    case ht3 => norm_num
    case hd3 => exact hd
    exact ⟨rfl, rfl⟩

lemma runTicks_one (g : ℕ → ℚ) (x : AnimationState) :
    runTicks g 1 x = updateEyeSprite (g 0) x := rfl

/-- A state right after the manual override scenario starts: the initial
animation state whose blink deadline (2 s, from draw 0) has already been
reached by the accumulated `timeSinceLastBlink`. -/
def overrideSample : AnimationState :=
  { initialAnimationState 0 with timeSinceLastBlink := 2 }

/-- C2 counterexample: after `setEyeState('closed')` on a state whose
autonomous deadline is due, the closed eye is shown, yet eleven ticks
later the displayed eye is open again — a spontaneous transition back to
open with no `triggerBlink()` and no override release.  The claim says
this never happens. -/
theorem manual_override_cex :
    (setEyeState overrideSample "closed").eyeClosedVisible = true ∧
    (setEyeState overrideSample "closed").eyeOpenVisible = false ∧
    (runTicks (fun _ => 0) 11 (setEyeState overrideSample "closed")).eyeOpenVisible = true ∧
    (runTicks (fun _ => 0) 11 (setEyeState overrideSample "closed")).eyeClosedVisible = false := by
  have h := override_closed_trace overrideSample (fun _ => 0) rfl
    (show (2 : ℚ) + 1 / 60 ≥ 0 * 3 + 2 by norm_num)
  exact ⟨(h.1 0 (by omega)).1, (h.1 0 (by omega)).2, h.2.1, h.2.2⟩

/-- C2 amended: `setEyeState('closed')` pins the eye closed but does NOT
suspend the autonomous blink machine (it clears `isBlinking` and
`blinkTimer` but leaves `timeSinceLastBlink` and `nextBlinkTime` running).
If the deadline is due at the next tick, the eye stays closed for the
first ten ticks (the trigger tick plus nine hold ticks) and spontaneously
reopens on the eleventh tick, without `triggerBlink()` or release. -/
theorem manual_override_not_exclusive :
    ∀ (st : AnimationState) (rs : ℕ → ℚ),
      st.blinkDuration = 15 / 100 →
      st.timeSinceLastBlink + 1 / 60 ≥ st.nextBlinkTime →
      (∀ k : ℕ, k ≤ 10 →
        (runTicks rs k (setEyeState st "closed")).eyeClosedVisible = true ∧
        (runTicks rs k (setEyeState st "closed")).eyeOpenVisible = false) ∧
      (runTicks rs 11 (setEyeState st "closed")).eyeOpenVisible = true ∧
      (runTicks rs 11 (setEyeState st "closed")).eyeClosedVisible = false :=
  fun st rs hd hdue => override_closed_trace st rs hd hdue

/-- C2 witness: the amended trace at the concrete override state with
constant draw 1/2. -/
theorem manual_override_witness :
    (overrideSample.blinkDuration = 15 / 100 ∧
      overrideSample.timeSinceLastBlink + 1 / 60 ≥ overrideSample.nextBlinkTime) ∧
    ((∀ k : ℕ, k ≤ 10 →
        (runTicks (fun _ => (1 : ℚ) / 2) k
          (setEyeState overrideSample "closed")).eyeClosedVisible = true ∧
        (runTicks (fun _ => (1 : ℚ) / 2) k
          (setEyeState overrideSample "closed")).eyeOpenVisible = false) ∧
      (runTicks (fun _ => (1 : ℚ) / 2) 11
        (setEyeState overrideSample "closed")).eyeOpenVisible = true ∧
      (runTicks (fun _ => (1 : ℚ) / 2) 11
        (setEyeState overrideSample "closed")).eyeClosedVisible = false) :=
  ⟨⟨rfl, show (2 : ℚ) + 1 / 60 ≥ 0 * 3 + 2 by norm_num⟩,
   manual_override_not_exclusive overrideSample (fun _ => (1 : ℚ) / 2) rfl
     (show (2 : ℚ) + 1 / 60 ≥ 0 * 3 + 2 by norm_num)⟩

/-- C7 (blink timing): from a non-blinking state with
`timeSinceLastBlink = 0`, the machine stays non-blinking at every tick
before the deadline tick `n` (the first tick whose accumulated time
`n/60` reaches `nextBlinkTime`), enters the blinking phase exactly at
tick `n` (and stays in it for the nine following ticks — a single
transition), and on tick `n + 10` (the first tick at which the hold
strictly exceeds the 0.15 s duration) returns to open with
`timeSinceLastBlink` reset to 0 and a fresh deadline `r * 3 + 2` that
lies in [2, 5) when the draw `r` lies in [0, 1). -/
theorem blink_timing :
    ∀ (st : AnimationState) (rs : ℕ → ℚ) (n : ℕ),
      st.isBlinking = false → st.timeSinceLastBlink = 0 →
      st.blinkDuration = 15 / 100 → 1 ≤ n →
      (∀ m : ℕ, m < n → (m : ℚ) / 60 < st.nextBlinkTime) →
      (n : ℚ) / 60 ≥ st.nextBlinkTime →
      0 ≤ rs (9 + n) → rs (9 + n) < 1 →
      (∀ m : ℕ, m < n → (runTicks rs m st).isBlinking = false) ∧
      ((runTicks rs n st).isBlinking = true ∧ (runTicks rs n st).blinkTimer = 0) ∧
      (∀ k : ℕ, n ≤ k → k ≤ n + 9 → (runTicks rs k st).isBlinking = true) ∧
      ((runTicks rs (n + 10) st).isBlinking = false ∧
        (runTicks rs (n + 10) st).timeSinceLastBlink = 0 ∧
        (runTicks rs (n + 10) st).eyeOpenVisible = true ∧
        (runTicks rs (n + 10) st).nextBlinkTime = rs (9 + n) * 3 + 2 ∧
        2 ≤ (runTicks rs (n + 10) st).nextBlinkTime ∧
        (runTicks rs (n + 10) st).nextBlinkTime < 5) := by
  intro st rs n hb hts hd hn1 hlt hge hr0 hr1
  have hopen : ∀ m : ℕ, m < n → runTicks rs m st =
      { st with timeSinceLastBlink := st.timeSinceLastBlink + (m : ℚ) / 60 } := by
    intro m hm
    refine openPhase m st rs hb ?_
    intro m' h1 h2
    rw [hts, zero_add]
    exact hlt m' (by omega)
  obtain ⟨m, hm⟩ : ∃ m, n = m + 1 := ⟨n - 1, by omega⟩
  have hBeq : runTicks rs n st =
      { st with timeSinceLastBlink := st.timeSinceLastBlink + (m : ℚ) / 60 + 1 / 60,
                isBlinking := true, blinkTimer := 0 } := by
    rw [hm, runTicks_add m 1, hopen m (by omega), runTicks_one]
    rw [blinkTrigger_step _ _ ?bb ?bdue]
    case bb => exact hb
    case bdue =>
      show st.timeSinceLastBlink + (m : ℚ) / 60 + 1 / 60 ≥ st.nextBlinkTime
      rw [hts, zero_add, div_add_div_same]
      have hc : (m : ℚ) + 1 = (n : ℚ) := by
        rw [hm]
        push_cast
        ring
      rw [hc]
      exact hge
  refine ⟨?_, ?_, ?_, ?_⟩
  · intro m' hm'
    rw [hopen m' hm']
    exact hb
  · rw [hBeq]
    exact ⟨rfl, rfl⟩
  · intro k hk1 hk2
    obtain ⟨j, rfl⟩ : ∃ j, k = n + j := ⟨k - n, by omega⟩
    rw [runTicks_add n j, hBeq]
    cases j with
    | zero => rfl
    | succ i =>
        rw [blinkPhase (i + 1) 0 _ (fun i => rs (i + n)) (by omega) (by omega) ?bb5 ?bt5 ?bd5]
        case bb5 => rfl
        case bt5 => norm_num
        case bd5 => exact hd
  · rw [runTicks_add n 10, hBeq]
    rw [show (10 : ℕ) = 9 + 1 from rfl, runTicks_add 9 1]
    rw [blinkPhase 9 0 _ (fun i => rs (i + n)) (by omega) (by omega) ?bb6 ?bt6 ?bd6]
    case bb6 => rfl
    case bt6 => norm_num
    case bd6 => exact hd
    rw [runTicks_one]
    rw [blinkFinish_step _ _ ?bb7 ?bt7 ?bd7]
    case bb7 => rfl
    case bt7 => norm_num
    case bd7 => exact hd
    refine ⟨rfl, rfl, rfl, rfl, ?_, ?_⟩
    · show (2 : ℚ) ≤ rs (9 + n) * 3 + 2
      have h3 : 0 ≤ rs (9 + n) * 3 := mul_nonneg hr0 (by norm_num)
      linarith
    · show rs (9 + n) * 3 + 2 < 5
      have h3 : rs (9 + n) * 3 < 1 * 3 :=
        mul_lt_mul_of_pos_right hr1 (by norm_num)
      linarith

/-- A state for the blink-timing witness: the initial animation state with
a deadline of one tick. -/
def blinkSample : AnimationState :=
  { initialAnimationState 0 with nextBlinkTime := 1 / 60 }

/-- C7 witness: the blink timing at the concrete state with deadline 1/60
(reached at the first tick), constant draw 1/2. -/
theorem blink_timing_witness :
    (blinkSample.isBlinking = false ∧ blinkSample.timeSinceLastBlink = 0 ∧
      blinkSample.blinkDuration = 15 / 100 ∧ (1 : ℕ) ≤ 1 ∧
      (∀ m : ℕ, m < 1 → (m : ℚ) / 60 < blinkSample.nextBlinkTime) ∧
      ((1 : ℕ) : ℚ) / 60 ≥ blinkSample.nextBlinkTime ∧
      (0 : ℚ) ≤ (fun _ : ℕ => (1 : ℚ) / 2) (9 + 1) ∧
      (fun _ : ℕ => (1 : ℚ) / 2) (9 + 1) < 1) ∧
    ((∀ m : ℕ, m < 1 →
        (runTicks (fun _ => (1 : ℚ) / 2) m blinkSample).isBlinking = false) ∧
      ((runTicks (fun _ => (1 : ℚ) / 2) 1 blinkSample).isBlinking = true ∧
        (runTicks (fun _ => (1 : ℚ) / 2) 1 blinkSample).blinkTimer = 0) ∧
      (∀ k : ℕ, 1 ≤ k → k ≤ 1 + 9 →
        (runTicks (fun _ => (1 : ℚ) / 2) k blinkSample).isBlinking = true) ∧
      ((runTicks (fun _ => (1 : ℚ) / 2) (1 + 10) blinkSample).isBlinking = false ∧
        (runTicks (fun _ => (1 : ℚ) / 2) (1 + 10) blinkSample).timeSinceLastBlink = 0 ∧
        (runTicks (fun _ => (1 : ℚ) / 2) (1 + 10) blinkSample).eyeOpenVisible = true ∧
        (runTicks (fun _ => (1 : ℚ) / 2) (1 + 10) blinkSample).nextBlinkTime =
          (fun _ : ℕ => (1 : ℚ) / 2) (9 + 1) * 3 + 2 ∧
        2 ≤ (runTicks (fun _ => (1 : ℚ) / 2) (1 + 10) blinkSample).nextBlinkTime ∧
        (runTicks (fun _ => (1 : ℚ) / 2) (1 + 10) blinkSample).nextBlinkTime < 5)) :=
  ⟨⟨rfl, rfl, rfl, le_refl 1,
    fun m hm => by
      have hm0 : m = 0 := by omega
      subst hm0
      show (0 : ℚ) / 60 < 1 / 60
      norm_num,
    show ((1 : ℕ) : ℚ) / 60 ≥ 1 / 60 by norm_num,
    by norm_num, by norm_num⟩,
   blink_timing blinkSample (fun _ => (1 : ℚ) / 2) 1 rfl rfl rfl (le_refl 1)
     (fun m hm => by
       have hm0 : m = 0 := by omega
       subst hm0
       show (0 : ℚ) / 60 < 1 / 60
       norm_num)
     (show ((1 : ℕ) : ℚ) / 60 ≥ 1 / 60 by norm_num)
     (by norm_num) (by norm_num)⟩

/-! Frame buffer lemmas. -/

lemma pushFrame_drop (buf : List AudioFrame) (f : AudioFrame) (h : buf.length ≤ 15) :
    pushFrame buf f = (buf ++ [f]).drop (buf.length + 1 - 15) := by
  by_cases hfull : buf.length + 1 > 15
  · have h15 : buf.length = 15 := by omega
    have hc : (buf ++ [f]).length > 15 := by
      simp only [List.length_append, List.length_singleton]
      omega
    simp only [pushFrame]
    rw [if_pos hc, h15]
    norm_num
  · have hc : ¬ ((buf ++ [f]).length > 15) := by
      simp only [List.length_append, List.length_singleton]
      omega
    simp only [pushFrame]
    rw [if_neg hc]
    have h0 : buf.length + 1 - 15 = 0 := by omega
    rw [h0, List.drop_zero]

lemma pushAll_eq_drop :
    ∀ (fs buf : List AudioFrame), buf.length ≤ 15 →
      pushAll buf fs = (buf ++ fs).drop (buf.length + fs.length - 15) := by
  intro fs
  induction fs with
  | nil =>
      intro buf h
      have h0 : buf.length + List.length ([] : List AudioFrame) - 15 = 0 := by
        simp only [List.length_nil]
        omega
      simp only [pushAll, List.foldl_nil, h0, List.append_nil, List.drop_zero]
  | cons f fs ih =>
      intro buf h
      have hd := pushFrame_drop buf f h
      have hlen : (pushFrame buf f).length ≤ 15 := by
        rw [hd, List.length_drop]
        simp only [List.length_append, List.length_singleton]
        omega
      have hstep : pushAll buf (f :: fs) = pushAll (pushFrame buf f) fs := rfl
      have hdle : buf.length + 1 - 15 ≤ (buf ++ [f]).length := by
        simp only [List.length_append, List.length_singleton]
        omega
      rw [hstep, ih _ hlen, hd]
      rw [← List.drop_append_of_le_length hdle]
      rw [List.drop_drop]
      rw [List.append_assoc, List.singleton_append]
      have hidx : buf.length + 1 - 15 +
          (((buf ++ [f]).drop (buf.length + 1 - 15)).length + fs.length - 15) =
          buf.length + (f :: fs).length - 15 := by
        simp only [List.length_drop, List.length_append, List.length_singleton,
          List.length_cons, List.length_nil]
        omega
      rw [hidx]

/-- C5 (frame buffer bound and FIFO): for every push sequence longer than
the capacity 15, the resulting buffer has exactly 15 entries, namely the
15 most recently pushed frames in push (FIFO) order — the suffix of the
push sequence — and after every prefix of the push sequence the buffer
length never exceeds 15 (each push at capacity drops exactly the single
oldest frame). -/
theorem frame_buffer_capacity_fifo :
    ∀ fs : List AudioFrame, 15 < fs.length →
      (pushAll [] fs).length = 15 ∧
      pushAll [] fs = fs.drop (fs.length - 15) ∧
      ∀ k : ℕ, (pushAll [] (fs.take k)).length ≤ 15 := by
  intro fs h
  have hmain := pushAll_eq_drop fs [] (by simp)
  simp only [List.nil_append, List.length_nil, Nat.zero_add] at hmain
  refine ⟨?_, hmain, ?_⟩
  · rw [hmain, List.length_drop]
    omega
  · intro k
    have hk := pushAll_eq_drop (fs.take k) [] (by simp)
    simp only [List.nil_append, List.length_nil, Nat.zero_add] at hk
    rw [hk, List.length_drop]
    omega

/-- Sixteen concrete frames for the frame-buffer witness. -/
def sampleFrames : List AudioFrame :=
  (List.range 16).map (fun i => ⟨[], (i : ℤ), 16000⟩)

/-- C5 witness: pushing 16 frames leaves the 15 most recent in order. -/
theorem frame_buffer_capacity_fifo_witness :
    15 < sampleFrames.length ∧
    ((pushAll [] sampleFrames).length = 15 ∧
      pushAll [] sampleFrames = sampleFrames.drop (sampleFrames.length - 15) ∧
      ∀ k : ℕ, (pushAll [] (sampleFrames.take k)).length ≤ 15) :=
  ⟨by decide, frame_buffer_capacity_fifo sampleFrames (by decide)⟩

/-- C6 (driver throttle and re-entrancy guard): a single invocation of the
audio processor dequeues at most one frame (the queue is unchanged or
loses exactly its head); a cycle starts (a frame is dequeued) only when at
least `PROCESS_INTERVAL` = 50 ms have passed since the recorded start of
the previous cycle and no classification is in flight, in which case the
new state records this cycle's start time and sets the in-flight flag; an
invocation with the in-flight flag set, or within 50 ms of the previous
start, changes nothing. -/
theorem driver_throttle_guard :
    ∀ (st : ProcessorState) (queue : List AudioFrame) (now : ℤ),
      ((processAudioStart st queue now).2.1 = queue ∨
        ((processAudioStart st queue now).2.2 = queue.head? ∧
          (processAudioStart st queue now).2.1 = queue.tail ∧
          (processAudioStart st queue now).2.1.length + 1 = queue.length)) ∧
      ((processAudioStart st queue now).2.2.isSome = true →
        now - st.lastProcessTime ≥ PROCESS_INTERVAL ∧ st.isProcessing = false ∧
        (processAudioStart st queue now).1.lastProcessTime = now ∧
        (processAudioStart st queue now).1.isProcessing = true) ∧
      (st.isProcessing = true → processAudioStart st queue now = (st, queue, none)) ∧
      (now - st.lastProcessTime < PROCESS_INTERVAL →
        processAudioStart st queue now = (st, queue, none)) := by
  intro st queue now
  by_cases h1 : now - st.lastProcessTime < PROCESS_INTERVAL
  · unfold processAudioStart
    rw [if_pos h1]
    exact ⟨Or.inl rfl, by intro hs; simp at hs, fun _ => rfl, fun _ => rfl⟩
  · by_cases h2 : st.isProcessing
    · unfold processAudioStart
      rw [if_neg h1, if_pos h2]
      exact ⟨Or.inl rfl, by intro hs; simp at hs, fun _ => rfl, fun hc => absurd hc h1⟩
    · by_cases h3 : queue.isEmpty
      · unfold processAudioStart
        rw [if_neg h1, if_neg h2, if_pos h3]
        exact ⟨Or.inl rfl, by intro hs; simp at hs,
          fun hp => absurd hp h2, fun hc => absurd hc h1⟩
      · unfold processAudioStart
        rw [if_neg h1, if_neg h2, if_neg h3]
        refine ⟨Or.inr ⟨rfl, rfl, ?_⟩, ?_, fun hp => absurd hp h2,
          fun hc => absurd hc h1⟩
        · cases queue with
          | nil => simp at h3
          | cons f q => rfl
        · intro _
          exact ⟨not_lt.mp h1, by simpa using h2, rfl, rfl⟩

/-- C6 witness: a due, idle processor with one queued frame starts exactly
one cycle — the in-flight flag is set, the start time recorded, and one
frame dequeued. -/
theorem driver_throttle_guard_witness :
    (processAudioStart ⟨0, false⟩ [⟨[], 0, 16000⟩] 100).2.2.isSome = true ∧
    (processAudioStart ⟨0, false⟩ [⟨[], 0, 16000⟩] 100).1.isProcessing = true ∧
    (processAudioStart ⟨0, false⟩ [⟨[], 0, 16000⟩] 100).1.lastProcessTime = 100 := by
  have h := (driver_throttle_guard ⟨0, false⟩ [⟨[], 0, 16000⟩] 100).2.1 (by decide)
  exact ⟨by decide, h.2.2.2, h.2.2.1⟩

/-- A pipeline state mid-session: microphone running, one queued frame,
one emitted category in the smoothing history. -/
def samplePipeline : PipelineState :=
  { micActive := true, isAudioRunning := true,
    audioBufferQueue := [⟨[], 0, 16000⟩], phonemeHistory := ["a"],
    isMicEnabled := true, phonemeCategory := "idle",
    anim := initialAnimationState 0 }

/-- C3: evaluating the microphone stop path at a state whose smoothing
history is `["a"]`: frame production stops, the shared buffer is cleared,
the blink machine keeps running (the next render tick still advances
`timeSinceLastBlink`) — but the smoothing history is left at `["a"]`,
not reset: `resetPhonemeHistory` is never called by this path, although
the repository's own cleanup documentation and the spec require it. -/
theorem stop_pipeline_postcondition :
    (onMicToggleOff samplePipeline).micActive = false ∧
    (onMicToggleOff samplePipeline).isAudioRunning = false ∧
    (onMicToggleOff samplePipeline).isMicEnabled = false ∧
    (onMicToggleOff samplePipeline).audioBufferQueue = [] ∧
    (onMicToggleOff samplePipeline).phonemeHistory = ["a"] ∧
    (onMicToggleOff samplePipeline).phonemeHistory ≠
      (resetPhonemeHistory (onMicToggleOff samplePipeline)).phonemeHistory ∧
    (animateTickMicOff 0 (onMicToggleOff samplePipeline)).anim.timeSinceLastBlink =
      (onMicToggleOff samplePipeline).anim.timeSinceLastBlink + 1 / 60 := by
  refine ⟨rfl, rfl, rfl, rfl, rfl, by decide, ?_⟩
  show (updateEyeSprite 0 (updateMouthSprite (initialAnimationState 0)
    "idle")).timeSinceLastBlink = (initialAnimationState 0).timeSinceLastBlink + 1 / 60
  have hm : updateMouthSprite (initialAnimationState 0) "idle" =
      initialAnimationState 0 := by
    simp only [updateMouthSprite]
    rw [if_pos (show "idle" = "" ∨ (initialAnimationState 0).currentMouthType = "idle"
      from Or.inr rfl)]
  rw [hm]
  rw [updateEyeSprite_idle 0 (initialAnimationState 0) rfl
    (show (0 : ℚ) + 1 / 60 < 0 * 3 + 2 by norm_num)]

end FreeTuber
